import Mathlib

/-!
Verification of the `stack` language core against its specification.

The development shallowly embeds the Rust sources:
* `src/stack-core/src/compile.rs` — machine values (`Val`), saturating
  integer arithmetic, compiled ops (`Op`), the virtual machine (`VM`),
  one-op stepping (`VM.step`) and compilation (`VM.compile`);
* `src/src/parser.rs` — the expression model (`Expr`), its cross-variant
  `PartialEq` (`Expr.eq`), truthiness (`Expr.is_truthy`) and the
  bracket-matching parser (`parse`);
* `src/stack-std/src/scope.rs` — the `scope` module's `where` function.

Machine integers are modelled as `Int` with explicit 64-bit bounds;
operations that can panic in Rust return `Option` (`none` models a panic).
Rust `f64` payloads are modelled by `F64`: NaN, signed infinities, and
finite values represented exactly as rationals.  IEEE comparison semantics
(NaN unequal to everything, numeric equality of finite values) are kept;
finite arithmetic is exact rather than rounded, a modelling choice that no
claim below depends on.  The conversion `i64 as f64` is modelled with
round-to-nearest, ties-to-even at 53 significant bits, as IEEE prescribes.
-/

/-- Model of Rust `f64` values: NaN, infinities (the `Bool` is the sign,
`true` meaning negative), and finite values as exact rationals.  Both
`+0.0` and `-0.0` are `finite 0`; IEEE `==` treats them as equal, which is
the only way the sources observe them. -/
inductive F64 where
  | nan : F64
  | inf : Bool → F64
  | finite : Rat → F64
deriving DecidableEq, Repr

/-- IEEE `==` on `f64`: NaN compares unequal to everything (itself
included); infinities compare by sign; finite values compare numerically. -/
def F64.beq : F64 → F64 → Bool
  | .nan, _ => false
  | _, .nan => false
  | .inf a, .inf b => a == b
  | .finite a, .finite b => a == b
  | _, _ => false

/-- Negation of an `f64` value. -/
def F64.neg : F64 → F64
  | .nan => .nan
  | .inf s => .inf (!s)
  | .finite q => .finite (-q)

/-- IEEE addition on the model: NaN propagates, opposite infinities give
NaN, finite addition is exact. -/
def F64.add : F64 → F64 → F64
  | .nan, _ => .nan
  | _, .nan => .nan
  | .inf a, .inf b => if a == b then .inf a else .nan
  | .inf a, .finite _ => .inf a
  | .finite _, .inf b => .inf b
  | .finite a, .finite b => .finite (a + b)

/-- IEEE subtraction on the model, as addition of the negation. -/
def F64.sub (a b : F64) : F64 := F64.add a (F64.neg b)

/-- IEEE multiplication on the model: NaN propagates, infinity times zero
is NaN, signs combine, finite multiplication is exact. -/
def F64.mul : F64 → F64 → F64
  | .nan, _ => .nan
  | _, .nan => .nan
  | .inf a, .inf b => .inf (a != b)
  | .inf a, .finite q => if q == 0 then .nan else .inf (a != decide (q < 0))
  | .finite q, .inf b => if q == 0 then .nan else .inf (b != decide (q < 0))
  | .finite a, .finite b => .finite (a * b)

/-- IEEE division on the model: NaN propagates, infinity over infinity is
NaN, a nonzero finite value over zero is a signed infinity, zero over zero
is NaN, finite division is exact. -/
def F64.div : F64 → F64 → F64
  | .nan, _ => .nan
  | _, .nan => .nan
  | .inf _, .inf _ => .nan
  | .inf a, .finite q => .inf (a != decide (q < 0))
  | .finite _, .inf _ => .finite 0
  | .finite a, .finite b =>
    if b == 0 then (if a == 0 then .nan else .inf (decide (a < 0)))
    else .finite (a / b)

/-- Truncation of a rational toward zero, via truncating integer division
of numerator by denominator. -/
def ratTrunc (q : Rat) : Int := Int.tdiv q.num q.den

/-- Rust `%` on `f64` (truncated remainder): NaN propagates, an infinite
dividend or zero divisor gives NaN, a finite dividend with infinite
divisor is returned unchanged, otherwise `a - b * trunc(a / b)`. -/
def F64.rem : F64 → F64 → F64
  | .nan, _ => .nan
  | _, .nan => .nan
  | .inf _, _ => .nan
  | .finite q, .inf _ => .finite q
  | .finite a, .finite b =>
    if b == 0 then .nan else .finite (a - b * (ratTrunc (a / b) : Rat))

/-- Round a natural number to 53 significant bits, nearest, ties to even:
the rounding `i64 as f64` performs on magnitudes at least `2 ^ 53`. -/
def roundNat53 (m : Nat) : Nat :=
  if m < 2 ^ 53 then m
  else
    let s := m.log2 + 1 - 53
    let q := m / 2 ^ s
    let r := m % 2 ^ s
    let half := 2 ^ (s - 1)
    let q2 := if half < r then q + 1
              else if r < half then q
              else if q % 2 == 0 then q else q + 1
    q2 * 2 ^ s

/-- Rust `i as f64` on `i64`: exact below `2 ^ 53` in magnitude, otherwise
rounded to nearest even at 53 significant bits; always finite. -/
def i64AsF64 (i : Int) : F64 :=
  if 0 ≤ i then .finite (roundNat53 i.toNat : Nat)
  else .finite (-((roundNat53 (-i).toNat : Nat) : Rat))

/-- Smallest `i64` value. -/
def i64Min : Int := -(2 ^ 63)

/-- Largest `i64` value. -/
def i64Max : Int := 2 ^ 63 - 1

/-- Whether an integer is representable as an `i64`. -/
def isI64 (i : Int) : Prop := i64Min ≤ i ∧ i ≤ i64Max

instance (i : Int) : Decidable (isI64 i) := by
  unfold isI64; infer_instance

/-- Clamp an integer to the `i64` range: the result of a Rust saturating
operation whose exact value is the argument. -/
def i64Clamp (x : Int) : Int :=
  if x < i64Min then i64Min else if i64Max < x then i64Max else x

/-- Machine-level value of the compiled instruction stream
(`compile.rs`, `enum Val`). -/
inductive Val where
  | Integer : Int → Val
  | Float : F64 → Val
deriving Repr, DecidableEq

/-- Rust `impl Add for Val`: integer addition saturates, float addition is
IEEE, a variant mismatch is an `Err` carrying both operands. -/
def Val.add : Val → Val → Except (Val × Val) Val
  | .Integer lhs, .Integer rhs => .ok (.Integer (i64Clamp (lhs + rhs)))
  | .Float lhs, .Float rhs => .ok (.Float (F64.add lhs rhs))
  | lhs, rhs => .error (lhs, rhs)

/-- Rust `impl Sub for Val`: like `Val.add`, with saturating subtraction. -/
def Val.sub : Val → Val → Except (Val × Val) Val
  | .Integer lhs, .Integer rhs => .ok (.Integer (i64Clamp (lhs - rhs)))
  | .Float lhs, .Float rhs => .ok (.Float (F64.sub lhs rhs))
  | lhs, rhs => .error (lhs, rhs)

/-- Rust `impl Mul for Val`: like `Val.add`, with saturating multiplication. -/
def Val.mul : Val → Val → Except (Val × Val) Val
  | .Integer lhs, .Integer rhs => .ok (.Integer (i64Clamp (lhs * rhs)))
  | .Float lhs, .Float rhs => .ok (.Float (F64.mul lhs rhs))
  | lhs, rhs => .error (lhs, rhs)

/-- Rust `impl Div for Val`: integer division uses `saturating_div`, which
panics on a zero divisor (`none` here) and otherwise truncates toward zero
and clamps (only `i64::MIN / -1` clamps); float division is IEEE; a
variant mismatch is an `Err` carrying both operands. -/
def Val.div : Val → Val → Option (Except (Val × Val) Val)
  | .Integer lhs, .Integer rhs =>
    if rhs = 0 then none
    else some (.ok (.Integer (i64Clamp (Int.tdiv lhs rhs))))
  | .Float lhs, .Float rhs => some (.ok (.Float (F64.div lhs rhs)))
  | lhs, rhs => some (.error (lhs, rhs))

/-- Rust `impl Rem for Val`: integer remainder uses `%`, which panics on a
zero divisor or on `i64::MIN % -1` (`none` here); float remainder is the
truncated IEEE remainder; a variant mismatch is an `Err` carrying both
operands. -/
def Val.rem : Val → Val → Option (Except (Val × Val) Val)
  | .Integer lhs, .Integer rhs =>
    if rhs = 0 ∨ (lhs = i64Min ∧ rhs = -1) then none
    else some (.ok (.Integer (Int.tmod lhs rhs)))
  | .Float lhs, .Float rhs => some (.ok (.Float (F64.rem lhs rhs)))
  | lhs, rhs => some (.error (lhs, rhs))

/-- Intrinsic operations, one per arm of the exhaustive `match` in
`VM::step` (`compile.rs`). -/
inductive Intrinsic where
  | Add | Sub | Mul | Div | Rem
  | Eq | Ne | Lt | Le | Gt | Ge
  | Or | And | Not
  | Assert
  | Drop | Dupe | Swap | Rot
  | Len | Nth | Split | Concat | Push | Pop | Insert | Prop | Has | Remove | Keys | Values
  | Cast | TypeOf
  | Lazy | If | Halt | Call
  | Let | Def | Set | Get
  | Debug | Print | Pretty
  | Recur | OrElse
  | Import
deriving Repr, DecidableEq

/-- Modelled from the spec: `Intrinsic::from_str` lives in the
`stack-core` crate outside `src/`.  Per the intrinsic catalog in spec
section 4.4 each intrinsic is named by its lower-case name (with
`type-of` and `or-else` hyphenated), and per the section 8 literal
scenario the bare identifier `+` names the add intrinsic. -/
def Intrinsic.from_str (s : String) : Option Intrinsic :=
  match s with
  | "+" | "add" => some .Add
  | "sub" => some .Sub
  | "mul" => some .Mul
  | "div" => some .Div
  | "rem" => some .Rem
  | "eq" => some .Eq
  | "ne" => some .Ne
  | "lt" => some .Lt
  | "le" => some .Le
  | "gt" => some .Gt
  | "ge" => some .Ge
  | "or" => some .Or
  | "and" => some .And
  | "not" => some .Not
  | "assert" => some .Assert
  | "drop" => some .Drop
  | "dupe" => some .Dupe
  | "swap" => some .Swap
  | "rot" => some .Rot
  | "len" => some .Len
  | "nth" => some .Nth
  | "split" => some .Split
  | "concat" => some .Concat
  | "push" => some .Push
  | "pop" => some .Pop
  | "insert" => some .Insert
  | "prop" => some .Prop
  | "has" => some .Has
  | "remove" => some .Remove
  | "keys" => some .Keys
  | "values" => some .Values
  | "cast" => some .Cast
  | "type-of" => some .TypeOf
  | "lazy" => some .Lazy
  | "if" => some .If
  | "halt" => some .Halt
  | "call" => some .Call
  | "let" => some .Let
  | "def" => some .Def
  | "set" => some .Set
  | "get" => some .Get
  | "debug" => some .Debug
  | "print" => some .Print
  | "pretty" => some .Pretty
  | "recur" => some .Recur
  | "or-else" => some .OrElse
  | "import" => some .Import
  | _ => none

/-- Expression kinds of the `stack-core` crate, one constructor per arm of
the exhaustive `match` in `VM::compile_expr` (`compile.rs`).  The payload
shapes of the composite constructors are modelled from the spec (section
3): `Lazy` and `List` carry ordered expression sequences, `Record` a
keyed mapping, `Function` a captured scope plus a body, `SExpr` a call
name plus a body.  Source-span metadata of the surrounding `Expr` struct
is omitted; `compile_expr` only inspects `expr.kind`. -/
inductive ExprKind where
  | Nil : ExprKind
  | Boolean : Bool → ExprKind
  | Integer : Int → ExprKind
  | Float : F64 → ExprKind
  | String : String → ExprKind
  | Symbol : String → ExprKind
  | Lazy : List ExprKind → ExprKind
  | List : List ExprKind → ExprKind
  | Record : List (String × ExprKind) → ExprKind
  | Function : List (String × ExprKind) → List ExprKind → ExprKind
  | SExpr : String → List ExprKind → ExprKind
  | Underscore : ExprKind
deriving Repr

/-- Compiled instruction (`compile.rs`, `enum Op`). -/
inductive Op where
  | Push : Val → Op
  | Intrinsic : Intrinsic → Op
  | End : Op
deriving Repr, DecidableEq

/-- VM failure signal (`compile.rs`, `enum VMError`).  `Halt` marks the
deliberate end of a run; `IPBounds` is reserved for instruction-pointer
range violations. -/
inductive VMError where
  | Unknown
  | Halt
  | IPBounds
deriving Repr, DecidableEq

/-- The virtual machine state (`compile.rs`, `struct VM`).  The value
stack is a list whose head is the top of the stack (the end of the Rust
`Vec`). -/
structure VM where
  ops : List Op
  ip : Nat
  registers : List Val
  stack : List Val
  sp : Nat
deriving Repr, DecidableEq

/-- Rust `VM::new`. -/
def VM.new : VM :=
  { ops := [], ip := 0, registers := [], stack := [], sp := 0 }

/-- Rust `VM::compile_expr`, one arm per `ExprKind` constructor; `none`
models a `todo!()` panic.  Only integer literals and symbols naming an
intrinsic compile. -/
def VM.compile_expr (expr : ExprKind) : Option Op :=
  match expr with
  | .Nil => none
  | .Boolean _ => none
  | .Integer int => some (.Push (.Integer int))
  | .Float _ => none
  | .String _ => none
  | .Symbol symbol =>
    match Intrinsic.from_str symbol with
    | some intrinsic => some (.Intrinsic intrinsic)
    | none => none
  | .Lazy _ => none
  | .List _ => none
  | .Record _ => none
  | .Function _ _ => none
  | .SExpr _ _ => none
  | .Underscore => none

/-- The loop body of Rust `VM::compile`: compile each expression in order,
aborting (`none`, a panic) on the first uncompilable one. -/
def compileOps : List ExprKind → Option (List Op)
  | [] => some []
  | expr :: exprs =>
    match VM.compile_expr expr, compileOps exprs with
    | some op, some ops => some (op :: ops)
    | _, _ => none

/-- Rust `VM::compile`: append one op per expression to the instruction
stream, then append `End`. -/
def VM.compile (vm : VM) (exprs : List ExprKind) : Option VM :=
  match compileOps exprs with
  | some ops => some { vm with ops := vm.ops ++ ops ++ [Op.End] }
  | none => none

/-- Rust `VM::step`.  The op at `ip` is read, `ip` advances by one
saturating at the stream length (the `usize` overflow branch returning
`IPBounds` is unreachable, as `ip` never exceeds the stream length, itself
far below `usize::MAX`), and then the op executes.  The result is `none`
for a `todo!()` panic (a missing op at `ip`, an unimplemented intrinsic,
or a variant-mismatched addition), `some (vm, none)` for `Ok(())`, and
`some (vm, some e)` for `Err(e)` — in each `some` case the returned state
carries every mutation made before the return, as the Rust method mutates
`self` in place. -/
def VM.step (vm : VM) : Option (VM × Option VMError) :=
  let op := vm.ops.get? vm.ip
  let vm1 := { vm with ip := min (vm.ip + 1) vm.ops.length }
  match op with
  | some (.Push val) => some ({ vm1 with stack := val :: vm1.stack }, none)
  | some (.Intrinsic intrinsic) =>
    match intrinsic with
    | .Add =>
      match vm1.stack with
      | [] => some (vm1, some .Unknown)
      | rhs :: rest =>
        match rest with
        | [] => some ({ vm1 with stack := [] }, some .Unknown)
        | lhs :: rest2 =>
          match Val.add lhs rhs with
          | .ok res => some ({ vm1 with stack := res :: rest2 }, none)
          | .error _ => none
    | _ => none
  | some .End => some (vm1, some .Halt)
  | none => none

/-- Iterate `VM.step` at most a given number of times: `some (.ok vm)`
means every step returned `Ok` (the machine is still running), `some
(.error (e, vm))` means some step returned the failure or halt signal `e`
in state `vm`, and `none` means some step panicked. -/
def stepN : Nat → VM → Option (Except (VMError × VM) VM)
  | 0, vm => some (.ok vm)
  | n + 1, vm =>
    match vm.step with
    | none => none
    | some (vm1, some e) => some (.error (e, vm1))
    | some (vm1, none) => stepN n vm1

/-- Expression/value type of the root crate (`src/src/parser.rs`,
`enum Expr`). -/
inductive Expr where
  | Integer : Int → Expr
  | Float : F64 → Expr
  | String : String → Expr
  | Boolean : Bool → Expr
  | Symbol : String → Expr
  | Call : String → Expr
  | Block : List Expr → Expr
  | List : List Expr → Expr
  | Nil : Expr
deriving Repr

mutual

/-- Rust `impl PartialEq for Expr` (`src/src/parser.rs`): same-variant
pairs compare by payload (floats with IEEE `==`, blocks and lists
element-wise), an integer and a float compare after converting the
integer with `as f64`, an integer and a boolean compare after testing the
integer against zero, and every other pair of variants compares unequal. -/
def Expr.eq : Expr → Expr → Bool
  | .Float a, .Float b => F64.beq a b
  | .Integer a, .Integer b => a == b
  | .String a, .String b => a == b
  | .Boolean a, .Boolean b => a == b
  | .Symbol a, .Symbol b => a == b
  | .Call a, .Call b => a == b
  | .Block a, .Block b => exprEqList a b
  | .List a, .List b => exprEqList a b
  | .Nil, .Nil => true
  | .Float a, .Integer b => F64.beq a (i64AsF64 b)
  | .Integer a, .Float b => F64.beq (i64AsF64 a) b
  | .Integer a, .Boolean b => decide (a ≠ 0) == b
  | .Boolean a, .Integer b => a == decide (b ≠ 0)
  | _, _ => false

/-- Element-wise equality of expression sequences, as Rust
`Vec<Expr>: PartialEq` does it. -/
def exprEqList : List Expr → List Expr → Bool
  | [], [] => true
  | a :: xs, b :: ys => Expr.eq a b && exprEqList xs ys
  | _, _ => false

end

/-- Rust `Expr::is_truthy` (`src/src/parser.rs`): `Nil` is false,
booleans are themselves, numbers are compared against zero, and every
other variant is true. -/
def Expr.is_truthy : Expr → Bool
  | .Nil => false
  | .Boolean b => b
  | .Integer i => decide (i ≠ 0)
  | .Float f => !F64.beq f (.finite 0)
  | _ => true

/-- Constructor tag of an `Expr`, used to state which variant an
expression is without fixing its payload. -/
def Expr.ctorIdx : Expr → Nat
  | .Integer _ => 0
  | .Float _ => 1
  | .String _ => 2
  | .Boolean _ => 3
  | .Symbol _ => 4
  | .Call _ => 5
  | .Block _ => 6
  | .List _ => 7
  | .Nil => 8

/-- The cross-variant pairs that `Expr`'s equality coerces instead of
rejecting: integer with float and integer with boolean, either way
around, named by constructor tags. -/
def coercedTags (a b : Nat) : Bool :=
  (a == 0 && b == 1) || (a == 1 && b == 0) || (a == 0 && b == 3) || (a == 3 && b == 0)

/-- Token type of the root crate, one constructor per arm of the
exhaustive `match` in `parse` (`src/src/parser.rs`; the `Token`
declaration itself sits in the crate root, which is not under `src/`). -/
inductive Token where
  | Integer : Int → Token
  | Float : F64 → Token
  | String : String → Token
  | Symbol : String → Token
  | Call : String → Token
  | Nil : Token
  | ParenStart : Token
  | ParenEnd : Token
  | BracketStart : Token
  | BracketEnd : Token
deriving Repr, DecidableEq

/-- Kind of an open bracket frame (`src/src/parser.rs`, `enum ListMode`). -/
inductive ListMode where
  | Paren : ListMode
  | Bracket : ListMode
deriving Repr, DecidableEq

/-- The loop of Rust `parse` (`src/src/parser.rs`).  `top` is the
innermost open frame's accumulated expressions (the mutable
`blocks.last_mut()`); `frames` holds, innermost first, each enclosing
frame paired with the `ListMode` its opening bracket pushed (the Rust
code keeps these as the two parallel stacks `blocks` and `list_mode`,
whose lengths differ by one).  A closer with no open frame or with a
frame of the other kind returns the empty result (the "Mismatched
brackets" early return); leftover open frames at the end of input return
the empty result (the "Unbalanced blocks" check `blocks.len() != 1`). -/
def parseGo : List Token → List Expr → List (ListMode × List Expr) → List Expr
  | [], top, frames => if frames.isEmpty then top else []
  | .Integer i :: ts, top, frames => parseGo ts (top ++ [Expr.Integer i]) frames
  | .Float f :: ts, top, frames => parseGo ts (top ++ [Expr.Float f]) frames
  | .String s :: ts, top, frames => parseGo ts (top ++ [Expr.String s]) frames
  | .Symbol s :: ts, top, frames => parseGo ts (top ++ [Expr.Symbol s]) frames
  | .Call s :: ts, top, frames =>
    if s = "true" then parseGo ts (top ++ [Expr.Boolean true]) frames
    else if s = "false" then parseGo ts (top ++ [Expr.Boolean false]) frames
    else parseGo ts (top ++ [Expr.Call s]) frames
  | .Nil :: ts, top, frames => parseGo ts (top ++ [Expr.Nil]) frames
  | .ParenStart :: ts, top, frames => parseGo ts [] ((.Paren, top) :: frames)
  | .BracketStart :: ts, top, frames => parseGo ts [] ((.Bracket, top) :: frames)
  | .ParenEnd :: ts, top, frames =>
    match frames with
    | (.Paren, parent) :: rest => parseGo ts (parent ++ [Expr.Block top]) rest
    | _ => []
  | .BracketEnd :: ts, top, frames =>
    match frames with
    | (.Bracket, parent) :: rest => parseGo ts (parent ++ [Expr.List top]) rest
    | _ => []

/-- Rust `parse` (`src/src/parser.rs`): run the loop from the single
empty root frame. -/
def parse (tokens : List Token) : List Expr := parseGo tokens [] []

/-- Bracket check mirroring the frame discipline of `parse` on the
`ListMode` stack alone: `false` exactly when the stream has an unmatched
closer, a closer whose kind differs from the innermost open frame, or —
at the end of input — an unmatched opener. -/
def balancedGo : List Token → List ListMode → Bool
  | [], modes => modes.isEmpty
  | .ParenStart :: ts, modes => balancedGo ts (.Paren :: modes)
  | .BracketStart :: ts, modes => balancedGo ts (.Bracket :: modes)
  | .ParenEnd :: ts, modes =>
    match modes with
    | .Paren :: rest => balancedGo ts rest
    | _ => false
  | .BracketEnd :: ts, modes =>
    match modes with
    | .Bracket :: rest => balancedGo ts rest
    | _ => false
  | _ :: ts, modes => balancedGo ts modes

/-- Whether a token stream's block and list brackets are balanced. -/
def balanced (tokens : List Token) : Bool := balancedGo tokens []

/-- Modelled from the spec: the `Engine`/module registry of `stack-core`
is not under `src/`.  Per spec sections 2 and 3 it maps module names to
their exported functions; the `where` lookup only asks whether a module
of a given name is registered, so only the names are kept. -/
structure Engine where
  modules : List String
deriving Repr, DecidableEq

/-- Modelled from the spec: `Engine::module` resolves a module name in
the registry; here, a membership test on the registered names. -/
def Engine.hasModule (engine : Engine) (name : String) : Bool :=
  engine.modules.contains name

/-- Modelled from the spec: the `Context` of `stack-core` is not under
`src/`.  Per spec section 3 it owns the value stack consulted by module
functions, a table of `let`-bound local names, and a table of persistent
(`def`) scope items; the journal and source table play no part in the
claims below and are omitted.  The stack's head is its top. -/
structure Context where
  stack : List ExprKind
  lets : List (String × ExprKind)
  scopeItems : List (String × ExprKind)

/-- Modelled from the spec: `Context::stack_pop` removes and returns the
top of the value stack, failing (spec section 7, stack-underflow-on-pop)
when the stack is empty. -/
def Context.stack_pop (context : Context) : Option (ExprKind × Context) :=
  match context.stack with
  | [] => none
  | val :: rest => some (val, { context with stack := rest })

/-- Modelled from the spec: `Context::stack_push` pushes a value onto the
value stack. -/
def Context.stack_push (context : Context) (val : ExprKind) : Context :=
  { context with stack := val :: context.stack }

/-- Modelled from the spec: `Context::let_get` looks a name up in the
table of `let`-bound locals. -/
def Context.let_get (context : Context) (name : String) : Option ExprKind :=
  context.lets.lookup name

/-- Modelled from the spec: `Context::scope_item` looks a name up in the
table of persistent scope items. -/
def Context.scope_item (context : Context) (name : String) : Option ExprKind :=
  context.scopeItems.lookup name

/-- The `where` function of the `scope` module
(`src/stack-std/src/scope.rs`): pop a value; if it is a symbol, push
`"intrinsic"` when the name parses as an intrinsic, else `"module"` when
the name's first `:`-separated segment is a registered module, else
`"let"` when a `let` binding of the name exists, else `"scope"` when a
persistent scope item of the name exists, else `Nil`; a non-symbol pops
to a pushed `Nil`.  `none` propagates a pop failure. -/
def scope_where (engine : Engine) (context : Context) : Option Context :=
  match context.stack_pop with
  | none => none
  | some (symbol, context1) =>
    match symbol with
    | .Symbol x =>
      if (Intrinsic.from_str x).isSome then
        some (context1.stack_push (.String "intrinsic"))
      else if engine.hasModule (((x.splitOn ":").headD "")) then
        some (context1.stack_push (.String "module"))
      else if (context1.let_get x).isSome then
        some (context1.stack_push (.String "let"))
      else if (context1.scope_item x).isSome then
        some (context1.stack_push (.String "scope"))
      else
        some (context1.stack_push .Nil)
    | _ => some (context1.stack_push .Nil)

/-- Modelled from the spec: the `stack-core` lexer and parser are not
under `src/`.  Per spec sections 4.1 and 4.2 the source `"2 2 +"` lexes
to two integer literals and the bare identifier `+`, and parsing turns
them into the corresponding expression sequence; `VM::compile_expr`
(which is under `src/`) shows bare identifiers naming intrinsics reach
the compiler as `Symbol` nodes. -/
def exprsOfTwoTwoPlus : List ExprKind :=
  [.Integer 2, .Integer 2, .Symbol "+"]

/-- Claim C1 (counterexample): compiling the expression sequence parsed
from `"2 2 +"` does produce `[Push(Integer 2), Push(Integer 2),
Intrinsic(Add), End]`, but the halt signal is produced on the FOURTH step
(the one that executes `End`), not the fifth: after four steps the run
has already ended with `Halt` and stack `[Integer 4]`, and a fifth call
to `step` panics (`none`) instead of halting. -/
theorem C1_halt_is_fourth_step_counterexample :
    VM.new.compile exprsOfTwoTwoPlus =
      some { ops := [.Push (.Integer 2), .Push (.Integer 2), .Intrinsic .Add, .End],
             ip := 0, registers := [], stack := [], sp := 0 }
  ∧ stepN 4 { ops := [.Push (.Integer 2), .Push (.Integer 2), .Intrinsic .Add, .End],
              ip := 0, registers := [], stack := [], sp := 0 } =
      some (.error (.Halt,
        { ops := [.Push (.Integer 2), .Push (.Integer 2), .Intrinsic .Add, .End],
          ip := 4, registers := [], stack := [.Integer 4], sp := 0 }))
  ∧ VM.step { ops := [.Push (.Integer 2), .Push (.Integer 2), .Intrinsic .Add, .End],
              ip := 4, registers := [], stack := [.Integer 4], sp := 0 } = none :=
  ⟨rfl, rfl, rfl⟩

/-- Claim C1 (amended): compiling the expression sequence parsed from
`"2 2 +"` produces exactly `[Push(Integer 2), Push(Integer 2),
Intrinsic(Add), End]`; the first three steps succeed and leave the value
stack `[Integer 4]`, and the halt signal is produced on the fourth step,
which executes `End` and leaves the stack `[Integer 4]`. -/
theorem C1_scenario_amended :
    VM.new.compile exprsOfTwoTwoPlus =
      some { ops := [.Push (.Integer 2), .Push (.Integer 2), .Intrinsic .Add, .End],
             ip := 0, registers := [], stack := [], sp := 0 }
  ∧ stepN 3 { ops := [.Push (.Integer 2), .Push (.Integer 2), .Intrinsic .Add, .End],
              ip := 0, registers := [], stack := [], sp := 0 } =
      some (.ok { ops := [.Push (.Integer 2), .Push (.Integer 2), .Intrinsic .Add, .End],
                  ip := 3, registers := [], stack := [.Integer 4], sp := 0 })
  ∧ VM.step { ops := [.Push (.Integer 2), .Push (.Integer 2), .Intrinsic .Add, .End],
              ip := 3, registers := [], stack := [.Integer 4], sp := 0 } =
      some ({ ops := [.Push (.Integer 2), .Push (.Integer 2), .Intrinsic .Add, .End],
              ip := 4, registers := [], stack := [.Integer 4], sp := 0 }, some .Halt) :=
  ⟨rfl, rfl, rfl⟩

/-- Claim C2 (counterexample): dividing `Integer 1` by `Integer 0` does
not return a clamped result — `saturating_div` panics on a zero divisor
(`none` in the model), so `div` on `Val::Integer` operands can panic. -/
theorem C2_div_by_zero_panics_counterexample :
    Val.div (.Integer 1) (.Integer 0) = none := rfl

/-- Claim C2 (amended): for all 64-bit integer operands, `add`, `sub` and
`mul` on `Val::Integer` never panic and never wrap — each returns the
mathematically exact result clamped to the `i64` range (the identity when
the exact result is representable) — and `div` does the same whenever the
divisor is nonzero, while a zero divisor panics. -/
theorem C2_saturating_arith_amended (a b : Int) (ha : isI64 a) (hb : isI64 b) :
    Val.add (.Integer a) (.Integer b) = .ok (.Integer (i64Clamp (a + b)))
  ∧ Val.sub (.Integer a) (.Integer b) = .ok (.Integer (i64Clamp (a - b)))
  ∧ Val.mul (.Integer a) (.Integer b) = .ok (.Integer (i64Clamp (a * b)))
  ∧ (b ≠ 0 → Val.div (.Integer a) (.Integer b) =
      some (.ok (.Integer (i64Clamp (Int.tdiv a b)))))
  ∧ (b = 0 → Val.div (.Integer a) (.Integer b) = none)
  ∧ (∀ x : Int, isI64 x → i64Clamp x = x)
  ∧ (∀ x : Int, i64Max < x → i64Clamp x = i64Max)
  ∧ (∀ x : Int, x < i64Min → i64Clamp x = i64Min) := by
  refine ⟨rfl, rfl, rfl, ?_, ?_, ?_, ?_, ?_⟩
  · intro hb0; simp [Val.div, hb0]
  · intro hb0; simp [Val.div, hb0]
  · intro x hx
    rcases hx with ⟨h1, h2⟩
    simp [i64Clamp, not_lt_of_le h1, not_lt_of_le h2]
  · intro x hx
    have : ¬ x < i64Min := by simp [i64Min, i64Max] at *; omega
    simp [i64Clamp, this, hx]
  · intro x hx
    simp [i64Clamp, hx]

/-- Claim C2 witness: saturating addition at the upper bound clamps. -/
theorem C2_saturating_arith_amended_witness :
    Val.add (.Integer i64Max) (.Integer 1) = .ok (.Integer (i64Clamp (i64Max + 1))) :=
  (C2_saturating_arith_amended i64Max 1 (by decide) (by decide)).1

/-- Claim C5: for every pair of `Val` operands of differing variants (one
`Integer`, one `Float`), each of `add`, `sub`, `mul`, `div` and `rem`
returns the distinguished failure carrying both operands unchanged, and
never panics. -/
theorem C5_mismatched_arith_failure (i : Int) (f : F64) :
    Val.add (.Integer i) (.Float f) = .error (.Integer i, .Float f)
  ∧ Val.add (.Float f) (.Integer i) = .error (.Float f, .Integer i)
  ∧ Val.sub (.Integer i) (.Float f) = .error (.Integer i, .Float f)
  ∧ Val.sub (.Float f) (.Integer i) = .error (.Float f, .Integer i)
  ∧ Val.mul (.Integer i) (.Float f) = .error (.Integer i, .Float f)
  ∧ Val.mul (.Float f) (.Integer i) = .error (.Float f, .Integer i)
  ∧ Val.div (.Integer i) (.Float f) = some (.error (.Integer i, .Float f))
  ∧ Val.div (.Float f) (.Integer i) = some (.error (.Float f, .Integer i))
  ∧ Val.rem (.Integer i) (.Float f) = some (.error (.Integer i, .Float f))
  ∧ Val.rem (.Float f) (.Integer i) = some (.error (.Float f, .Integer i)) :=
  ⟨rfl, rfl, rfl, rfl, rfl, rfl, rfl, rfl, rfl, rfl⟩

/-- Claim C6 (code bug): invoking `step` with `ip` at the stream length
without `End` having been executed panics via `todo!("ip out of bounds")`
(`none` in the model) instead of reporting the distinguished `IPBounds`
failure the claim — and the `VMError::IPBounds` variant itself —
prescribe.  Here the empty instruction stream with `ip = 0`. -/
theorem C6_ip_out_of_bounds_panics :
    VM.step { ops := [], ip := 0, registers := [], stack := [], sp := 0 } = none := rfl

/-- Claim C7 (counterexample): a failing step does NOT leave the value
stack exactly as it was before the step.  With one operand on the stack,
the add intrinsic's first pop succeeds and its second pop underflows; the
step returns the failure with the stack already empty, not restored to
`[Integer 2]`. -/
theorem C7_stack_not_restored_counterexample :
    VM.step { ops := [.Intrinsic .Add, .End], ip := 0, registers := [],
              stack := [.Integer 2], sp := 0 } =
      some ({ ops := [.Intrinsic .Add, .End], ip := 1, registers := [],
              stack := [], sp := 0 }, some .Unknown)
  ∧ ([] : List Val) ≠ [Val.Integer 2] :=
  ⟨rfl, by decide⟩

/-- Helper: an imbalance detected by `balancedGo` forces `parseGo` to
return the empty result, whatever expressions have been accumulated. -/
theorem parseGo_of_imbalanced (ts : List Token) :
    ∀ (top : List Expr) (frames : List (ListMode × List Expr)),
      balancedGo ts (frames.map Prod.fst) = false → parseGo ts top frames = [] := by
  induction ts with
  | nil =>
    intro top frames h
    simp [balancedGo] at h
    simp [parseGo, h]
  | cons t ts ih =>
    intro top frames h
    cases t with
    | Integer i => exact ih _ frames (by simpa [balancedGo] using h)
    | Float f => exact ih _ frames (by simpa [balancedGo] using h)
    | String s => exact ih _ frames (by simpa [balancedGo] using h)
    | Symbol s => exact ih _ frames (by simpa [balancedGo] using h)
    | Nil => exact ih _ frames (by simpa [balancedGo] using h)
    | Call s =>
      have h2 := (by simpa [balancedGo] using h : balancedGo ts (frames.map Prod.fst) = false)
      by_cases h3 : s = "true"
      · simp [parseGo, h3]; exact ih _ frames h2
      · by_cases h4 : s = "false"
        · simp [parseGo, h3, h4]; exact ih _ frames h2
        · simp [parseGo, h3, h4]; exact ih _ frames h2
    | ParenStart =>
      have h2 : balancedGo ts (((ListMode.Paren, top) :: frames).map Prod.fst) = false := by
        simpa [balancedGo] using h
      simpa [parseGo] using ih [] _ h2
    | BracketStart =>
      have h2 : balancedGo ts (((ListMode.Bracket, top) :: frames).map Prod.fst) = false := by
        simpa [balancedGo] using h
      simpa [parseGo] using ih [] _ h2
    | ParenEnd =>
      match frames with
      | [] => simp [parseGo]
      | (ListMode.Paren, parent) :: rest =>
        have h2 : balancedGo ts (rest.map Prod.fst) = false := by
          simpa [balancedGo] using h
        simpa [parseGo] using ih (parent ++ [Expr.Block top]) rest h2
      | (ListMode.Bracket, parent) :: rest => simp [parseGo]
    | BracketEnd =>
      match frames with
      | [] => simp [parseGo]
      | (ListMode.Bracket, parent) :: rest =>
        have h2 : balancedGo ts (rest.map Prod.fst) = false := by
          simpa [balancedGo] using h
        simpa [parseGo] using ih (parent ++ [Expr.List top]) rest h2
      | (ListMode.Paren, parent) :: rest => simp [parseGo]

/-- Claim C4: for every token stream containing an unmatched opener, an
unmatched closer, or a closer whose kind does not match the innermost
open frame (that is, any stream whose brackets are not balanced), `parse`
returns the empty expression sequence and never a partial result. -/
theorem C4_parse_imbalance_empty (ts : List Token) (h : balanced ts = false) :
    parse ts = [] :=
  parseGo_of_imbalanced ts [] [] h

/-- Claim C4 witness: the token stream of the spec scenario `"(1 2 3]"`
is imbalanced and parses to the empty sequence. -/
theorem C4_parse_imbalance_empty_witness :
    balanced [Token.ParenStart, .Integer 1, .Integer 2, .Integer 3, .BracketEnd] = false
  ∧ parse [Token.ParenStart, .Integer 1, .Integer 2, .Integer 3, .BracketEnd] = [] :=
  ⟨by decide, C4_parse_imbalance_empty _ (by decide)⟩

/-- Claim C7 (amended): whenever a step returns a failure, the resulting
value stack is the stack at the moment of failure: pops already performed
by the failing instruction are not undone (underflow inside the add
intrinsic can leave the first operand consumed), and no failing step
pushes — so the post-failure stack is always a suffix of the pre-step
stack (the head of the list being the top). -/
theorem C7_failure_stack_suffix_amended (vm vm1 : VM) (e : VMError)
    (h : vm.step = some (vm1, some e)) : vm1.stack <:+ vm.stack := by
  unfold VM.step at h
  cases hop : vm.ops.get? vm.ip with
  | none => rw [hop] at h; cases h
  | some op =>
    rw [hop] at h
    cases op with
    | Push v => simp at h
    | End =>
      simp at h
      obtain ⟨h1, h2⟩ := h
      subst h1
      exact List.suffix_refl _
    | Intrinsic intr =>
      cases intr <;> simp at h
      case Add =>
        cases hstk : vm.stack with
        | nil =>
          rw [hstk] at h
          simp at h
          obtain ⟨h1, h2⟩ := h
          subst h1
          simp [hstk]
        | cons rhs rest =>
          rw [hstk] at h
          cases rest with
          | nil =>
            simp at h
            obtain ⟨h1, h2⟩ := h
            subst h1
            exact List.nil_suffix
          | cons lhs rest2 =>
            simp at h
            cases hadd : Val.add lhs rhs with
            | ok res => rw [hadd] at h; simp at h
            | error p => rw [hadd] at h; simp at h

/-- Claim C7 witness: a concrete underflowing add fails and leaves a
suffix of the pre-step stack. -/
theorem C7_failure_stack_suffix_amended_witness :
    ([] : List Val) <:+ [Val.Integer 1] :=
  C7_failure_stack_suffix_amended
    { ops := [.Intrinsic .Add, .End], ip := 0, registers := [], stack := [.Integer 1], sp := 0 }
    { ops := [.Intrinsic .Add, .End], ip := 1, registers := [], stack := [], sp := 0 }
    .Unknown rfl

/-- Claim C10: `is_truthy` returns `false` exactly for `Nil`,
`Boolean false`, `Integer 0` and `Float 0.0`; every other value —
strings (empty included), symbols, calls, blocks and lists — is truthy. -/
theorem C10_is_truthy_characterization (e : Expr) :
    Expr.is_truthy e = false ↔
      e = Expr.Nil ∨ e = Expr.Boolean false ∨ e = Expr.Integer 0
        ∨ e = Expr.Float (F64.finite 0) := by
  cases e <;> simp [Expr.is_truthy]
  case Float f => cases f <;> simp [F64.beq]

/-- Claim C3: `Expr` equality across variants — an integer and a float
compare equal exactly when the integer converted with `as f64` equals the
float under IEEE `==`; an integer and a boolean compare equal exactly when
the integer's non-zeroness equals the boolean; every other cross-variant
pair compares unequal; and same-variant pairs compare by payload (floats
under IEEE `==`, blocks and lists element-wise). -/
theorem C3_expr_equality_coercion :
    (∀ i f, Expr.eq (.Integer i) (.Float f) = F64.beq (i64AsF64 i) f)
  ∧ (∀ f i, Expr.eq (.Float f) (.Integer i) = F64.beq f (i64AsF64 i))
  ∧ (∀ i b, Expr.eq (.Integer i) (.Boolean b) = (decide (i ≠ 0) == b))
  ∧ (∀ b i, Expr.eq (.Boolean b) (.Integer i) = (b == decide (i ≠ 0)))
  ∧ (∀ a b : Expr, a.ctorIdx ≠ b.ctorIdx → coercedTags a.ctorIdx b.ctorIdx = false →
        Expr.eq a b = false)
  ∧ (∀ i j : Int, Expr.eq (.Integer i) (.Integer j) = (i == j))
  ∧ (∀ f g, Expr.eq (.Float f) (.Float g) = F64.beq f g)
  ∧ (∀ s t : String, Expr.eq (.String s) (.String t) = (s == t))
  ∧ (∀ a b : Bool, Expr.eq (.Boolean a) (.Boolean b) = (a == b))
  ∧ (∀ s t : String, Expr.eq (.Symbol s) (.Symbol t) = (s == t))
  ∧ (∀ s t : String, Expr.eq (.Call s) (.Call t) = (s == t))
  ∧ (∀ xs ys, Expr.eq (.Block xs) (.Block ys) = exprEqList xs ys)
  ∧ (∀ xs ys, Expr.eq (.List xs) (.List ys) = exprEqList xs ys)
  ∧ Expr.eq .Nil .Nil = true := by
  refine ⟨fun i f => rfl, fun f i => rfl, fun i b => rfl, fun b i => rfl, ?_,
    fun i j => rfl, fun f g => rfl, fun s t => rfl, fun a b => rfl,
    fun s t => rfl, fun s t => rfl, fun xs ys => rfl, fun xs ys => rfl, rfl⟩
  intro a b h1 h2
  cases a <;> cases b <;>
    first
      | rfl
      | exact absurd rfl h1
      | simp [Expr.ctorIdx, coercedTags] at h1 h2

/-- Claim C3 witness: a string never equals a symbol, a concrete instance
of the cross-variant-unequal clause. -/
theorem C3_expr_equality_coercion_witness :
    Expr.eq (.String "x") (.Symbol "x") = false :=
  C3_expr_equality_coercion.2.2.2.2.1 (.String "x") (.Symbol "x")
    (by decide) (by decide)

/-- Helper: a successful step from a position inside the stream moves to
the next position without touching the instruction stream. -/
theorem step_ok_shape (vm vm1 : VM) (hlt : vm.ip < vm.ops.length)
    (h : vm.step = some (vm1, none)) :
    vm1.ops = vm.ops ∧ vm1.ip = vm.ip + 1 ∧ vm.ops.get? vm.ip ≠ some Op.End := by
  have hmin : min (vm.ip + 1) vm.ops.length = vm.ip + 1 := by omega
  unfold VM.step at h
  cases hop : vm.ops.get? vm.ip with
  | none => rw [hop] at h; cases h
  | some op =>
    rw [hop] at h
    cases op with
    | Push v =>
      simp at h
      subst h
      simp [hmin, hop]
    | End => simp at h
    | Intrinsic intr =>
      cases intr <;> simp at h
      case Add =>
        cases hstk : vm.stack with
        | nil => rw [hstk] at h; simp at h
        | cons rhs rest =>
          rw [hstk] at h
          cases rest with
          | nil => simp at h
          | cons lhs rest2 =>
            simp at h
            cases hadd : Val.add lhs rhs with
            | ok res =>
              rw [hadd] at h
              simp at h
              subst h
              simp [hmin, hop]
            | error p => rw [hadd] at h; simp at h

/-- Helper: from a position inside a stream whose final op is `End`,
within as many steps as remain the iterated stepper cannot still be
running: it ends in a failure or halt signal, or in a panic. -/
theorem stepN_stops (n : Nat) :
    ∀ vm : VM, vm.ops.getLast? = some Op.End → vm.ip < vm.ops.length →
      vm.ops.length ≤ vm.ip + n →
      ∀ vmr, stepN n vm ≠ some (Except.ok vmr) := by
  induction n with
  | zero =>
    intro vm hlast hlt hle vmr
    omega
  | succ n ih =>
    intro vm hlast hlt hle vmr
    rw [stepN]
    cases hstep : vm.step with
    | none => simp
    | some res =>
      obtain ⟨vm1, e?⟩ := res
      cases e? with
      | some e => simp
      | none =>
        simp only
        obtain ⟨hops, hip, hne⟩ := step_ok_shape vm vm1 hlt hstep
        have hlt1 : vm.ip + 1 < vm.ops.length := by
          rcases Nat.lt_or_ge (vm.ip + 1) vm.ops.length with hc | hc
          · exact hc
          · exfalso
            have hix : vm.ip = vm.ops.length - 1 := by omega
            have : vm.ops.get? vm.ip = vm.ops.getLast? := by
              rw [List.getLast?_eq_getElem?, hix, List.get?_eq_getElem?]
            rw [this, hlast] at hne
            exact hne rfl
        exact ih vm1 (by rw [hops]; exact hlast) (by rw [hip, hops]; omega) (by rw [hip, hops]; omega) vmr

/-- Claim C8 (counterexample): the compiler happily emits intrinsics other
than add — here `[Intrinsic(Sub), End]` from the single expression
`Symbol "sub"` — and stepping that stream panics (`todo!()`) on its very
first step, so the run ends in a panic rather than in a halt signal or a
failure within the stream length. -/
theorem C8_unimplemented_intrinsic_panics_counterexample :
    VM.new.compile [ExprKind.Symbol "sub"] =
      some { ops := [.Intrinsic .Sub, .End], ip := 0, registers := [], stack := [], sp := 0 }
  ∧ stepN 2 { ops := [.Intrinsic .Sub, .End], ip := 0, registers := [],
              stack := [], sp := 0 } = none :=
  ⟨rfl, rfl⟩

/-- Claim C8 (amended): for every instruction stream produced by
`VM::compile` (which appends exactly one `End` after one op per input
expression), repeatedly calling `step` terminates — in a halt signal, a
failure, or a panic on an unimplemented intrinsic — within a number of
steps equal to the stream length: the iterated stepper can never still be
running after that many steps. -/
theorem C8_compiled_stream_terminates_amended (exprs : List ExprKind) (vm : VM)
    (h : VM.new.compile exprs = some vm) (vmr : VM) :
    stepN vm.ops.length vm ≠ some (Except.ok vmr) := by
  unfold VM.compile at h
  cases hc : compileOps exprs with
  | none => rw [hc] at h; cases h
  | some ops =>
    rw [hc] at h
    injection h with h
    subst h
    apply stepN_stops
    · simp [VM.new]
    · simp [VM.new]
    · simp [VM.new]

/-- Claim C8 witness: the compiled stream of the single expression
`Integer 2` has length two and is no longer running after two steps. -/
theorem C8_compiled_stream_terminates_amended_witness :
    stepN 2 { ops := [Op.Push (Val.Integer 2), Op.End], ip := 0, registers := [],
              stack := [], sp := 0 } ≠ some (Except.ok VM.new) :=
  C8_compiled_stream_terminates_amended [ExprKind.Integer 2]
    { ops := [Op.Push (Val.Integer 2), Op.End], ip := 0, registers := [],
      stack := [], sp := 0 } rfl VM.new

/-- Claim C9: with a symbol on top of the stack, the scope module's
`where` function resolves the name in priority order — (1) intrinsic name
match pushes `"intrinsic"`; (2) else a registered module named by the
name's first `:`-separated segment pushes `"module"`; (3) else an
existing `let` binding pushes `"let"`; (4) else an existing persistent
scope item pushes `"scope"`; (5) else `Nil` is pushed — leaving the rest
of the stack and both binding tables untouched. -/
theorem C9_where_priority (engine : Engine) (context : Context) (x : String)
    (rest : List ExprKind) (h : context.stack = ExprKind.Symbol x :: rest) :
    scope_where engine context =
      some { context with stack :=
        (if (Intrinsic.from_str x).isSome then ExprKind.String "intrinsic"
         else if engine.hasModule ((x.splitOn ":").headD "") then ExprKind.String "module"
         else if (context.let_get x).isSome then ExprKind.String "let"
         else if (context.scope_item x).isSome then ExprKind.String "scope"
         else ExprKind.Nil) :: rest } := by
  unfold scope_where Context.stack_pop
  rw [h]
  simp only [Context.stack_push, Context.let_get, Context.scope_item]
  split_ifs <;> rfl

/-- Claim C9 witness: the symbol `+` names an intrinsic, so `where`
pushes `"intrinsic"` even though a module named `scope` is registered. -/
theorem C9_where_priority_witness :
    scope_where { modules := ["scope"] }
        { stack := [ExprKind.Symbol "+"], lets := [], scopeItems := [] } =
      some { stack := [ExprKind.String "intrinsic"], lets := [], scopeItems := [] } := by
  have h := C9_where_priority { modules := ["scope"] }
    { stack := [ExprKind.Symbol "+"], lets := [], scopeItems := [] } "+" [] rfl
  simpa using h
